import Mathlib

/-!
Verification development for the evilSDR backend.

Shallow embedding of the Python sources:
  * `src/backend/decoders/pocsag.py` — POCSAG decoder (BCH check/correct, batch parsing,
    numeric/alpha payload decoding, message assembly);
  * `src/backend/dsp.py` — `RadioDSP` (mode switching, FFT path, demodulation pipeline);
  * `src/backend/rtl_client.py` — rtl_tcp command framing;
  * `src/backend/server.py` — bounded IQ queue semantics of `reader_loop`;
  * `src/backend/scanner.py` — scanner state machine and its external commands.

Machine floats of the DSP path are modelled over `ℚ`; the transcendental numpy
primitives (`np.angle`, complex magnitude, `np.log10`, `np.fft.fft`) are taken as
oracle parameters, so every theorem about the DSP quantifies over them.
-/

namespace EvilSDR

/-! ### POCSAG BCH layer (`pocsag.py` lines 254-284)

`BCH_POLY`, `_bch_check`, `_bch_syndrome`, `_bch_correct` modelled on `Nat`
with explicit bit operations (Python ints are unbounded, as is `Nat`).
-/

/-- Generator polynomial constant `BCH_POLY = 0x769` from `pocsag.py`. -/
def BCH_POLY : Nat := 0x769

/-- One iteration of the long-division loop in `_bch_syndrome`:
`if remainder & (1 << i): remainder ^= BCH_POLY << (i - 10)`. -/
def bchStep (r : Nat) (i : Nat) : Nat :=
  if r &&& (1 <<< i) ≠ 0 then r ^^^ (BCH_POLY <<< (i - 10)) else r

/-- `_bch_syndrome(data31)`: long division of the 31-bit data by the generator,
iterating `i` over `range(30, 9, -1)` (that is `30, 29, …, 10`), then `& 0x3FF`. -/
def bchSyndrome (data31 : Nat) : Nat :=
  ((List.range 21).foldl (fun r j => bchStep r (30 - j)) data31) &&& 0x3FF

/-- Binary digit-sum worker; the first argument is fuel, consumed once per
halving, so the recursion is structural (and hence kernel-computable). -/
def popcountAux : Nat → Nat → Nat
  | 0, _ => 0
  | fuel + 1, n => if n = 0 then 0 else popcountAux fuel (n / 2) + n % 2

/-- Number of set bits of `n`, as computed by `bin(codeword).count('1')` in the
source; `n` itself is always enough fuel since halving reaches `0` within `n`
steps. -/
def popcount (n : Nat) : Nat := popcountAux n n

/-- `_bch_check(codeword)`: even parity of the whole 32-bit word and zero
syndrome of the upper 31 bits. -/
def bchCheck (codeword : Nat) : Bool :=
  if popcount codeword % 2 ≠ 0 then false
  else bchSyndrome (codeword >>> 1) == 0

/-- The `for bit in range(31)` search loop of `_bch_correct`: try flipping each
data bit in turn, returning the first corrected word (with its parity bit
recomputed).  `remaining` counts the loop iterations still to run (the caller
passes `31`), keeping the recursion structural. -/
def bchFlipSearch (data : Nat) : Nat → Nat → Option Nat
  | 0, _ => none
  | remaining + 1, bit =>
    let test := data ^^^ (1 <<< bit)
    if bchSyndrome test = 0 then
      let corrected := test <<< 1
      some (if popcount corrected % 2 ≠ 0 then corrected ||| 1 else corrected)
    else bchFlipSearch data remaining (bit + 1)

/-- `_bch_correct(codeword)`: if the 31-bit data already has zero syndrome the
error is in the parity bit (`codeword ^ 1`); otherwise search for a single
flippable data bit; `none` models Python's `return None` (uncorrectable). -/
def bchCorrect (codeword : Nat) : Option Nat :=
  if bchSyndrome (codeword >>> 1) = 0 then some (codeword ^^^ 1)
  else bchFlipSearch (codeword >>> 1) 31 0

/-! #### Arithmetic facts about `popcount` -/

theorem popcountAux_congr : ∀ f1 f2 n, n ≤ f1 → n ≤ f2 →
    popcountAux f1 n = popcountAux f2 n := by
  intro f1
  induction f1 with
  | zero =>
    intro f2 n h1 _
    interval_cases n
    cases f2 <;> simp [popcountAux]
  | succ f ih =>
    intro f2 n h1 h2
    by_cases hn : n = 0
    · subst hn; cases f2 <;> simp [popcountAux]
    · obtain ⟨g, rfl⟩ : ∃ g, f2 = g + 1 := ⟨f2 - 1, by omega⟩
      simp only [popcountAux, if_neg hn]
      have hd : n / 2 < n := Nat.div_lt_self (by omega) (by omega)
      rw [ih g (n / 2) (by omega) (by omega)]

/-- The defining recurrence of `popcount`. -/
theorem popcount_rec (n : Nat) :
    popcount n = if n = 0 then 0 else popcount (n / 2) + n % 2 := by
  by_cases hn : n = 0
  · subst hn; rfl
  · obtain ⟨m, rfl⟩ : ∃ m, n = m + 1 := ⟨n - 1, by omega⟩
    simp only [popcount, popcountAux, if_neg hn]
    rw [popcountAux_congr m ((m + 1) / 2) ((m + 1) / 2) (by omega) (by omega)]

theorem popcount_zero : popcount 0 = 0 := rfl

theorem popcount_two_mul (n : Nat) : popcount (2 * n) = popcount n := by
  by_cases hn : n = 0
  · subst hn; rfl
  · rw [popcount_rec (2 * n), if_neg (by omega)]
    have h2 : 2 * n / 2 = n := by omega
    have h3 : 2 * n % 2 = 0 := by omega
    rw [h2, h3]
    omega

theorem popcount_two_mul_add_one (n : Nat) :
    popcount (2 * n + 1) = popcount n + 1 := by
  rw [popcount_rec (2 * n + 1), if_neg (by omega)]
  have h2 : (2 * n + 1) / 2 = n := by omega
  have h3 : (2 * n + 1) % 2 = 1 := by omega
  rw [h2, h3]

/-- A number's bit count splits into the count of its upper bits plus its
lowest bit. -/
theorem popcount_split (c : Nat) : popcount c = popcount (c / 2) + c % 2 := by
  by_cases hc : c = 0
  · subst hc; rfl
  · rw [popcount_rec c, if_neg hc]

/-! #### Linearity of the syndrome over XOR -/

theorem and_one_shiftLeft_ne_zero (x i : Nat) :
    (x &&& (1 <<< i) ≠ 0) ↔ x.testBit i = true := by
  rw [Nat.one_shiftLeft, Nat.and_two_pow]
  cases h : x.testBit i <;> simp [h]

theorem xor_cancel_pair (a b p : Nat) : (a ^^^ p) ^^^ (b ^^^ p) = a ^^^ b := by
  rw [Nat.xor_assoc, Nat.xor_comm p (b ^^^ p), Nat.xor_assoc, Nat.xor_self,
    Nat.xor_zero]

theorem xor_shift_right_arg (a b p : Nat) : (a ^^^ b) ^^^ p = (a ^^^ p) ^^^ b := by
  rw [Nat.xor_assoc, Nat.xor_comm b p, Nat.xor_assoc]

/-- Each long-division step is XOR-linear in its running remainder. -/
theorem bchStep_xor (a b i : Nat) :
    bchStep (a ^^^ b) i = bchStep a i ^^^ bchStep b i := by
  unfold bchStep
  have hx : ((a ^^^ b) &&& (1 <<< i) ≠ 0) ↔ ((a ^^^ b).testBit i = true) :=
    and_one_shiftLeft_ne_zero _ _
  have ha := and_one_shiftLeft_ne_zero a i
  have hb := and_one_shiftLeft_ne_zero b i
  rw [Nat.testBit_xor] at hx
  by_cases h1 : a.testBit i = true <;> by_cases h2 : b.testBit i = true
  · rw [if_pos (ha.mpr h1), if_pos (hb.mpr h2),
      if_neg (show ¬((a ^^^ b) &&& (1 <<< i) ≠ 0) by simp [hx, h1, h2]),
      xor_cancel_pair]
  · rw [if_pos (ha.mpr h1),
      if_neg (show ¬(b &&& (1 <<< i) ≠ 0) by simp [hb, h2]),
      if_pos (show (a ^^^ b) &&& (1 <<< i) ≠ 0 by simp [hx, h1, h2]),
      xor_shift_right_arg]
  · rw [if_neg (show ¬(a &&& (1 <<< i) ≠ 0) by simp [ha, h1]),
      if_pos (hb.mpr h2),
      if_pos (show (a ^^^ b) &&& (1 <<< i) ≠ 0 by simp [hx, h1, h2]),
      Nat.xor_assoc]
  · rw [if_neg (show ¬(a &&& (1 <<< i) ≠ 0) by simp [ha, h1]),
      if_neg (show ¬(b &&& (1 <<< i) ≠ 0) by simp [hb, h2]),
      if_neg (show ¬((a ^^^ b) &&& (1 <<< i) ≠ 0) by simp [hx, h1, h2])]

theorem foldl_bchStep_xor (l : List Nat) : ∀ a b,
    l.foldl (fun r j => bchStep r (30 - j)) (a ^^^ b)
      = (l.foldl (fun r j => bchStep r (30 - j)) a)
        ^^^ (l.foldl (fun r j => bchStep r (30 - j)) b) := by
  induction l with
  | nil => intro a b; rfl
  | cons x xs ih =>
    intro a b
    simp only [List.foldl_cons]
    rw [bchStep_xor, ih]

/-- `_bch_syndrome` is XOR-linear. -/
theorem bchSyndrome_xor (a b : Nat) :
    bchSyndrome (a ^^^ b) = bchSyndrome a ^^^ bchSyndrome b := by
  unfold bchSyndrome
  rw [foldl_bchStep_xor, Nat.and_xor_distrib_right]

set_option maxRecDepth 8000 in
/-- The 31 single-bit error patterns have pairwise distinct syndromes
(finite check over the concrete generator `0x769`). -/
theorem bchSyndrome_single_inj : ∀ e, e < 31 → ∀ b, b < 31 →
    (bchSyndrome (1 <<< e) = bchSyndrome (1 <<< b) ↔ e = b) := by
  decide

set_option maxRecDepth 8000 in
/-- No single-bit error pattern has syndrome zero. -/
theorem bchSyndrome_single_ne_zero : ∀ e, e < 31 → bchSyndrome (1 <<< e) ≠ 0 := by
  decide

/-! #### Behaviour of the flip-search loop -/

/-- If position `e` is the unique flip (within bits `0..30`) that zeroes the
syndrome, the search loop finds exactly it. -/
theorem bchFlipSearch_finds (data e : Nat) (he : e < 31)
    (hzero : bchSyndrome (data ^^^ (1 <<< e)) = 0)
    (huniq : ∀ b, b < 31 → bchSyndrome (data ^^^ (1 <<< b)) = 0 → b = e) :
    ∀ remaining bit, bit + remaining = 31 → bit ≤ e →
      bchFlipSearch data remaining bit =
        some (if popcount ((data ^^^ (1 <<< e)) <<< 1) % 2 ≠ 0
              then ((data ^^^ (1 <<< e)) <<< 1) ||| 1
              else (data ^^^ (1 <<< e)) <<< 1) := by
  intro remaining
  induction remaining with
  | zero => intro bit h1 h2; omega
  | succ rem ih =>
    intro bit h1 h2
    simp only [bchFlipSearch]
    by_cases hs : bchSyndrome (data ^^^ (1 <<< bit)) = 0
    · have hbe : bit = e := huniq bit (by omega) hs
      subst hbe
      simp only [if_pos hs]
    · have hne : bit ≠ e := fun h => hs (h ▸ hzero)
      simp only [if_neg hs]
      exact ih (bit + 1) (by omega) (by omega)

/-! #### Shift and parity helpers for the main theorem -/

theorem xor_one_shiftRight_one (c : Nat) : (c ^^^ 1) >>> 1 = c >>> 1 := by
  apply Nat.eq_of_testBit_eq
  intro i
  rw [Nat.testBit_shiftRight, Nat.testBit_shiftRight, Nat.testBit_xor]
  have h1 : Nat.testBit 1 (1 + i) = false := by
    have : (1 : Nat) = 2 ^ 0 := rfl
    rw [this, Nat.testBit_two_pow_of_ne (by omega)]
  rw [h1, Bool.xor_false]

theorem xor_shiftLeft_shiftRight_one (c k : Nat) (hk : 1 ≤ k) :
    (c ^^^ (1 <<< k)) >>> 1 = (c >>> 1) ^^^ (1 <<< (k - 1)) := by
  apply Nat.eq_of_testBit_eq
  intro i
  rw [Nat.testBit_xor, Nat.testBit_shiftRight, Nat.testBit_shiftRight,
    Nat.testBit_xor, Nat.one_shiftLeft, Nat.one_shiftLeft,
    Nat.testBit_two_pow, Nat.testBit_two_pow]
  have : (k = 1 + i) ↔ (k - 1 = i) := by omega
  simp [this]

theorem two_mul_or_one (d : Nat) : (2 * d) ||| 1 = 2 * d + 1 := by
  apply Nat.eq_of_testBit_eq
  intro i
  cases i with
  | zero =>
    rw [Nat.testBit_or, Nat.testBit_zero, Nat.testBit_zero, Nat.testBit_zero]
    simp [Nat.mul_add_mod, Nat.mul_mod_right]
  | succ j =>
    rw [Nat.testBit_or, Nat.testBit_succ, Nat.testBit_succ, Nat.testBit_succ]
    have h1 : Nat.testBit (1 / 2) j = false := by simp [Nat.testBit, Nat.shiftRight_eq_div_pow]
    have h2 : 2 * d / 2 = d := by omega
    have h3 : (2 * d + 1) / 2 = d := by omega
    rw [h1, h2, h3, Bool.or_false]

/-- Claim C1: every 32-bit codeword `c` with even parity and zero BCH syndrome
over its upper 31 bits passes `_bch_check`, and `_bch_correct` undoes any
single flipped bit `k ∈ [0, 32)`, returning exactly `c`. -/
theorem bch_check_and_single_error_correct (c : Nat) (hc : c < 2 ^ 32)
    (hpar : popcount c % 2 = 0) (hsyn : bchSyndrome (c >>> 1) = 0) :
    bchCheck c = true ∧
      ∀ k, k < 32 → bchCorrect (c ^^^ (1 <<< k)) = some c := by
  constructor
  · unfold bchCheck
    rw [if_neg (by omega)]
    simp [hsyn]
  · intro k hk
    by_cases hk0 : k = 0
    · subst hk0
      have h1 : (1 : Nat) <<< 0 = 1 := rfl
      rw [h1]
      unfold bchCorrect
      rw [xor_one_shiftRight_one, if_pos hsyn, Nat.xor_assoc, Nat.xor_self,
        Nat.xor_zero]
    · -- a data bit was flipped: the search loop must find and undo it
      have hk1 : 1 ≤ k := by omega
      set d := c >>> 1 with hd
      set e := k - 1 with he
      have he31 : e < 31 := by omega
      have hshift : (c ^^^ (1 <<< k)) >>> 1 = d ^^^ (1 <<< e) :=
        xor_shiftLeft_shiftRight_one c k hk1
      have hsyn' : bchSyndrome (d ^^^ (1 <<< e)) = bchSyndrome (1 <<< e) := by
        rw [bchSyndrome_xor, hsyn, Nat.zero_xor]
      have hnz : bchSyndrome (d ^^^ (1 <<< e)) ≠ 0 := by
        rw [hsyn']
        exact bchSyndrome_single_ne_zero e he31
      unfold bchCorrect
      rw [hshift, if_neg hnz]
      set data := d ^^^ (1 <<< e) with hdata
      have hzero : bchSyndrome (data ^^^ (1 <<< e)) = 0 := by
        rw [hdata, Nat.xor_assoc, Nat.xor_self, Nat.xor_zero, hsyn]
      have huniq : ∀ b, b < 31 → bchSyndrome (data ^^^ (1 <<< b)) = 0 → b = e := by
        intro b hb hzb
        rw [hdata, xor_shift_right_arg, bchSyndrome_xor, bchSyndrome_xor, hsyn,
          Nat.zero_xor] at hzb
        exact ((bchSyndrome_single_inj b hb e he31).mp
          (Nat.xor_eq_zero.mp hzb)).symm ▸ rfl
      rw [bchFlipSearch_finds data e he31 hzero huniq 31 0 rfl (by omega)]
      have hback : data ^^^ (1 <<< e) = d := by
        rw [hdata, Nat.xor_assoc, Nat.xor_self, Nat.xor_zero]
      rw [hback]
      -- parity recomputation restores the original low bit
      have hc2 : c = 2 * d + c % 2 := by
        rw [hd, Nat.shiftRight_one]; omega
      have hpc : popcount c = popcount d + c % 2 := by
        rw [popcount_split c, hd, Nat.shiftRight_one]
      have hshl : d <<< 1 = 2 * d := by
        rw [Nat.shiftLeft_eq]; ring
      by_cases hlow : c % 2 = 0
      · have hde : popcount (2 * d) % 2 = 0 := by
          rw [popcount_two_mul]
          omega
        rw [hshl, if_neg (by omega)]
        exact congrArg some (by omega)
      · have hde : popcount (2 * d) % 2 ≠ 0 := by
          rw [popcount_two_mul]
          omega
        rw [hshl, if_pos hde, two_mul_or_one]
        exact congrArg some (by omega)

/-- Witness: the POCSAG idle word `0x7A89C197` is a valid codeword, and
correcting it after flipping its top bit restores it. -/
theorem bch_check_and_single_error_correct_witness :
    bchCheck 0x7A89C197 = true ∧
      bchCorrect (0x7A89C197 ^^^ (1 <<< 31)) = some 0x7A89C197 := by
  have h := bch_check_and_single_error_correct 0x7A89C197 (by norm_num)
    (by decide) (by decide)
  exact ⟨h.1, h.2 31 (by norm_num)⟩

/-! ### POCSAG batch parsing (`pocsag.py` lines 133-251)

`_decode_batch`, `_emit_message`, `_decode_numeric`, `_decode_alpha` and
`_bits_to_int`.  Message timestamps and the timestamp-based duplicate
suppression of `_emit_message` are wall-clock effects and are not modelled:
`decodeBatch` returns the messages `_emit_message` constructs and that pass
its `msg.content` (non-empty) test; the messages actually appended to the
history deque form a subsequence of this list. -/

/-- `POCSAG_SYNC = 0x7CD215D8`. -/
def POCSAG_SYNC : Nat := 0x7CD215D8

/-- `POCSAG_IDLE = 0x7A89C197`. -/
def POCSAG_IDLE : Nat := 0x7A89C197

/-- The numeric alphabet string `"0123456789*U -)(."`. -/
def POCSAG_NUMERIC : List Char :=
  ['0', '1', '2', '3', '4', '5', '6', '7', '8', '9', '*', 'U', ' ', '-', ')', '(', '.']

/-- `_bits_to_int(bits)`: `val = (val << 1) | b` over the list. -/
def bitsToInt (bits : List Nat) : Nat :=
  bits.foldl (fun v b => (v <<< 1) ||| b) 0

/-- `_int_to_bits(value, width)`: MSB-first bit list. -/
def intToBits (value width : Nat) : List Nat :=
  (List.range width).map (fun i => (value >>> (width - 1 - i)) &&& 1)

/-- `_decode_numeric(bits)`: 4-bit groups MSB-first, each nibble bit-reversed,
then indexed into the numeric alphabet (out-of-range nibbles are dropped;
with the 17-character alphabet every nibble 0-15 is in range). -/
def decodeNumeric : List Nat → List Char
  | b0 :: b1 :: b2 :: b3 :: rest =>
    let nibble := (b0 <<< 3) ||| (b1 <<< 2) ||| (b2 <<< 1) ||| b3
    let nibble := ((nibble &&& 0x8) >>> 3) ||| ((nibble &&& 0x4) >>> 1)
      ||| ((nibble &&& 0x2) <<< 1) ||| ((nibble &&& 0x1) <<< 3)
    (match POCSAG_NUMERIC.get? nibble with
     | some ch => [ch]
     | none => []) ++ decodeNumeric rest
  | _ => []

/-- `_decode_alpha(bits)`: 7-bit groups, LSB-first within each group; printable
ASCII is kept, a NUL terminates, anything else is skipped. -/
def decodeAlpha : List Nat → List Char
  | b0 :: b1 :: b2 :: b3 :: b4 :: b5 :: b6 :: rest =>
    let v := b0 ||| (b1 <<< 1) ||| (b2 <<< 2) ||| (b3 <<< 3) ||| (b4 <<< 4)
      ||| (b5 <<< 5) ||| (b6 <<< 6)
    if 32 ≤ v ∧ v ≤ 126 then Char.ofNat v :: decodeAlpha rest
    else if v = 0 then []
    else decodeAlpha rest
  | _ => []

/-- Python `str.strip()` whitespace test, restricted to the characters the
decoder can produce (all ASCII). -/
def pyIsSpace (c : Char) : Bool :=
  c = ' ' ∨ c = '\t' ∨ c = '\n' ∨ c = '\r' ∨ c = '\x0b' ∨ c = '\x0c'

/-- Python `str.strip()`: drop leading and trailing whitespace. -/
def pyStrip (s : List Char) : List Char :=
  ((s.dropWhile pyIsSpace).reverse.dropWhile pyIsSpace).reverse

/-- A decoded POCSAG message (`POCSAGMessage` in the source, minus the
wall-clock timestamp). -/
structure PocsagMsg where
  address : Nat
  function_bits : Nat
  content : List Char
  msg_type : String
  baud_rate : Nat
deriving DecidableEq, Repr

/-- The pure part of `_emit_message`: decode the payload both ways, pick
alpha when the alpha text is non-empty and more than 70% printable
(`printable / len > 0.7`, rationalised as `10 * printable > 7 * len`),
and strip the chosen content. -/
def emitMessage (address functionBits : Nat) (dataBits : List Nat)
    (baudRate : Nat) : PocsagMsg :=
  let numericText := decodeNumeric dataBits
  let alphaText := decodeAlpha dataBits
  let printable := (alphaText.filter (fun c => 32 ≤ c.toNat ∧ c.toNat ≤ 126)).length
  let isAlpha := alphaText.length > 0 ∧ 10 * printable > 7 * alphaText.length
  if isAlpha then
    ⟨address, functionBits, pyStrip alphaText, "alpha", baudRate⟩
  else
    ⟨address, functionBits, pyStrip numericText, "numeric", baudRate⟩

/-- `_emit_message` appends the message only when its stripped content is
non-empty (`if not is_duplicate and msg.content`); duplicate suppression is
timestamp-based and not modelled (see the section comment). -/
def emitKept (address functionBits : Nat) (dataBits : List Nat)
    (baudRate : Nat) : List PocsagMsg :=
  let m := emitMessage address functionBits dataBits baudRate
  if m.content = [] then [] else [m]

/-- The loop state of `_decode_batch`: `current_address`, `current_function`,
`message_bits`, plus the messages emitted so far. -/
structure BatchState where
  currentAddress : Option Nat
  currentFunction : Nat
  messageBits : List Nat
  emitted : List PocsagMsg
deriving DecidableEq, Repr

/-- The 20 payload bits of a message codeword: `(codeword >> bit_pos) & 1`
for `bit_pos` in `range(30, 10, -1)`. -/
def payloadBits (codeword : Nat) : List Nat :=
  (List.range 20).map (fun j => (codeword >>> (30 - j)) &&& 1)

/-- One iteration of the codeword loop in `_decode_batch`. -/
def processCodeword (baudRate frameIdx : Nat) (st : BatchState)
    (codeword : Nat) : BatchState :=
  if codeword = POCSAG_IDLE then
    if st.currentAddress.isSome ∧ st.messageBits ≠ [] then
      { st with
        emitted := st.emitted ++
          emitKept (st.currentAddress.getD 0) st.currentFunction
            st.messageBits baudRate,
        messageBits := [], currentAddress := none }
    else st
  else
    match (if bchCheck codeword then some codeword else bchCorrect codeword) with
    | none => st
    | some cw =>
      if (cw >>> 31) &&& 1 = 0 then
        -- address codeword: flush any pending message, then latch the address
        let st1 :=
          if st.currentAddress.isSome ∧ st.messageBits ≠ [] then
            { st with
              emitted := st.emitted ++
                emitKept (st.currentAddress.getD 0) st.currentFunction
                  st.messageBits baudRate,
              messageBits := [] }
          else st
        { st1 with
          currentAddress := some ((((cw >>> 13) &&& 0x7FFFF) <<< 3) ||| frameIdx),
          currentFunction := (cw >>> 11) &&& 3,
          messageBits := [] }
      else
        match st.currentAddress with
        | none => st  -- orphan message codeword
        | some _ => { st with messageBits := st.messageBits ++ payloadBits cw }

/-- `_decode_batch(bits, baud_rate)`: 8 frames of 2 codewords each (batch
position `p = frame_idx * 2 + cw_idx`), then a final flush. -/
def decodeBatch (bits : List Nat) (baudRate : Nat) : List PocsagMsg :=
  if bits.length < 512 then []
  else
    let final := (List.range 16).foldl
      (fun st p =>
        processCodeword baudRate (p / 2) st (bitsToInt ((bits.drop (p * 32)).take 32)))
      ⟨none, 0, [], []⟩
    final.emitted ++
      (if final.currentAddress.isSome ∧ final.messageBits ≠ [] then
        emitKept (final.currentAddress.getD 0) final.currentFunction
          final.messageBits baudRate
      else [])

/-- `POCSAG_BAUD_RATES = [512, 1200, 2400]`. -/
def POCSAG_BAUD_RATES : List Nat := [512, 1200, 2400]

/-! #### Range invariants for decoded messages (claim C2) -/

/-- The field ranges claimed for every decoded message. -/
def GoodMsg (m : PocsagMsg) (baudRate : Nat) : Prop :=
  m.address < 2 ^ 21 ∧ m.function_bits < 4 ∧ m.baud_rate = baudRate ∧
    (m.msg_type = "numeric" ∨ m.msg_type = "alpha")

/-- Invariant carried through the `_decode_batch` loop. -/
def GoodState (st : BatchState) (baudRate : Nat) : Prop :=
  st.currentAddress.getD 0 < 2 ^ 21 ∧ st.currentFunction < 4 ∧
    ∀ m ∈ st.emitted, GoodMsg m baudRate

theorem emitMessage_good (addr fn : Nat) (db : List Nat) (baud : Nat)
    (ha : addr < 2 ^ 21) (hf : fn < 4) :
    GoodMsg (emitMessage addr fn db baud) baud := by
  unfold emitMessage
  dsimp only
  split <;> exact ⟨ha, hf, rfl, by simp⟩

theorem emitKept_good (addr fn : Nat) (db : List Nat) (baud : Nat)
    (ha : addr < 2 ^ 21) (hf : fn < 4) :
    ∀ m ∈ emitKept addr fn db baud, GoodMsg m baud := by
  intro m hm
  unfold emitKept at hm
  dsimp only at hm
  split at hm
  · simp at hm
  · rw [List.mem_singleton] at hm
    exact hm ▸ emitMessage_good addr fn db baud ha hf

/-- Any word returned by the flip-search loop stays below `2^32`. -/
theorem bchFlipSearch_lt : ∀ (remaining bit data r : Nat), data < 2 ^ 31 →
    bit + remaining ≤ 31 → bchFlipSearch data remaining bit = some r →
    r < 2 ^ 32 := by
  intro remaining
  induction remaining with
  | zero => intro bit data r _ _ h; simp [bchFlipSearch] at h
  | succ rem ih =>
    intro bit data r hd hb h
    simp only [bchFlipSearch] at h
    split at h
    · have htest : data ^^^ (1 <<< bit) < 2 ^ 31 := by
        apply Nat.xor_lt_two_pow hd
        rw [Nat.one_shiftLeft]
        exact Nat.pow_lt_pow_right (by omega) (by omega)
      have hshl : (data ^^^ (1 <<< bit)) <<< 1 < 2 ^ 32 := by
        rw [Nat.shiftLeft_eq]
        have := htest
        omega
      rw [Option.some_inj] at h
      subst h
      split
      · exact Nat.or_lt_two_pow hshl (by norm_num)
      · exact hshl
    · exact ih (bit + 1) data r hd (by omega) h

/-- Any word returned by `_bch_correct` stays below `2^32`. -/
theorem bchCorrect_lt (codeword r : Nat) (hcw : codeword < 2 ^ 32)
    (h : bchCorrect codeword = some r) : r < 2 ^ 32 := by
  unfold bchCorrect at h
  split at h
  · rw [Option.some_inj] at h
    subst h
    exact Nat.xor_lt_two_pow hcw (by norm_num)
  · have hdata : codeword >>> 1 < 2 ^ 31 := by
      rw [Nat.shiftRight_one]
      omega
    exact bchFlipSearch_lt 31 0 (codeword >>> 1) r hdata (by omega) h

/-- `_bits_to_int` of bits that are all `0`/`1` is bounded by `2 ^ length`. -/
theorem bitsToInt_lt (l : List Nat) (hb : ∀ b ∈ l, b ≤ 1) :
    bitsToInt l < 2 ^ l.length := by
  have aux : ∀ (l : List Nat) (v : Nat), (∀ b ∈ l, b ≤ 1) →
      l.foldl (fun v b => (v <<< 1) ||| b) v < (v + 1) * 2 ^ l.length := by
    intro l
    induction l with
    | nil => intro v _; simp
    | cons b bs ih =>
      intro v hbl
      have hb1 : b ≤ 1 := hbl b (by simp)
      have hstep : (v <<< 1) ||| b ≤ 2 * v + 1 := by
        rw [Nat.shiftLeft_eq, pow_one, Nat.mul_comm]
        interval_cases b
        · simp
        · rw [two_mul_or_one]
      have := ih ((v <<< 1) ||| b) (fun x hx => hbl x (by simp [hx]))
      calc (b :: bs).foldl (fun v b => (v <<< 1) ||| b) v
          = bs.foldl (fun v b => (v <<< 1) ||| b) ((v <<< 1) ||| b) := by
            simp [List.foldl_cons]
        _ < (((v <<< 1) ||| b) + 1) * 2 ^ bs.length := this
        _ ≤ (2 * v + 2) * 2 ^ bs.length := by
            apply Nat.mul_le_mul_right
            omega
        _ = (v + 1) * 2 ^ (b :: bs).length := by
            simp [List.length_cons, pow_succ]
            ring
  have := aux l 0 hb
  simpa using this

/-- With the top bit clear, a number below `2^32` is below `2^31`. -/
theorem lt_two_pow_31_of_top_clear (cw : Nat) (hcw : cw < 2 ^ 32)
    (htop : (cw >>> 31) &&& 1 = 0) : cw < 2 ^ 31 := by
  rw [Nat.and_one_is_mod, Nat.shiftRight_eq_div_pow] at htop
  omega

/-- The address built by an address codeword is below `2^21`. -/
theorem address_bound (cw frameIdx : Nat) (hcw : cw < 2 ^ 31) (hf : frameIdx < 8) :
    (((cw >>> 13) &&& 0x7FFFF) <<< 3) ||| frameIdx < 2 ^ 21 := by
  have h1 : (cw >>> 13) &&& 0x7FFFF < 2 ^ 18 := by
    have h2 : cw >>> 13 < 2 ^ 18 := by
      rw [Nat.shiftRight_eq_div_pow]
      omega
    exact Nat.lt_of_le_of_lt Nat.and_le_left h2
  apply Nat.or_lt_two_pow _ (by omega)
  rw [Nat.shiftLeft_eq]
  omega

theorem processCodeword_good (baudRate frameIdx : Nat) (st : BatchState)
    (cw : Nat) (hf : frameIdx < 8) (hcw : cw < 2 ^ 32)
    (hst : GoodState st baudRate) :
    GoodState (processCodeword baudRate frameIdx st cw) baudRate := by
  obtain ⟨ha, hfn, hem⟩ := hst
  unfold processCodeword
  by_cases hidle : cw = POCSAG_IDLE
  · rw [if_pos hidle]
    split
    · refine ⟨by simp, hfn, ?_⟩
      intro m hm
      simp only [List.mem_append] at hm
      rcases hm with hm | hm
      · exact hem m hm
      · exact emitKept_good _ _ _ _ ha hfn m hm
    · exact ⟨ha, hfn, hem⟩
  · rw [if_neg hidle]
    cases hbc : (if bchCheck cw then some cw else bchCorrect cw) with
    | none => exact ⟨ha, hfn, hem⟩
    | some cw' =>
      have hcw' : cw' < 2 ^ 32 := by
        by_cases hch : bchCheck cw
        · rw [if_pos hch, Option.some_inj] at hbc
          exact hbc ▸ hcw
        · rw [if_neg hch] at hbc
          exact bchCorrect_lt cw cw' hcw hbc
      simp only
      by_cases htop : (cw' >>> 31) &&& 1 = 0
      · rw [if_pos htop]
        have hlt31 := lt_two_pow_31_of_top_clear cw' hcw' htop
        have haddr := address_bound cw' frameIdx hlt31 hf
        have hfn' : (cw' >>> 11) &&& 3 < 4 :=
          Nat.lt_of_le_of_lt Nat.and_le_right (by norm_num)
        split
        · refine ⟨by simpa using haddr, hfn', ?_⟩
          intro m hm
          simp only [List.mem_append] at hm
          rcases hm with hm | hm
          · exact hem m hm
          · exact emitKept_good _ _ _ _ ha hfn m hm
        · exact ⟨by simpa using haddr, hfn', hem⟩
      · rw [if_neg htop]
        cases hca : st.currentAddress with
        | none => exact ⟨ha, hfn, hem⟩
        | some a =>
          refine ⟨?_, hfn, hem⟩
          simpa [hca] using ha

theorem decodeBatch_good (bits : List Nat) (baudRate : Nat)
    (hb : ∀ b ∈ bits, b ≤ 1) :
    ∀ m ∈ decodeBatch bits baudRate, GoodMsg m baudRate := by
  intro m hm
  unfold decodeBatch at hm
  split at hm
  · simp at hm
  · have hfold : ∀ (ps : List Nat) (st : BatchState), (∀ p ∈ ps, p / 2 < 8) →
        GoodState st baudRate →
        GoodState (ps.foldl (fun st p =>
          processCodeword baudRate (p / 2) st
            (bitsToInt ((bits.drop (p * 32)).take 32))) st) baudRate := by
      intro ps
      induction ps with
      | nil => intro st _ hst; exact hst
      | cons p ps ih =>
        intro st hps hst
        rw [List.foldl_cons]
        apply ih _ (fun q hq => hps q (by simp [hq]))
        apply processCodeword_good _ _ _ _ (hps p (by simp)) _ hst
        have hlen : ((bits.drop (p * 32)).take 32).length ≤ 32 := by
          simp [List.length_take]
        have hmem : ∀ b ∈ (bits.drop (p * 32)).take 32, b ≤ 1 := by
          intro b hbl
          exact hb b (List.mem_of_mem_drop (List.mem_of_mem_take hbl))
        calc bitsToInt ((bits.drop (p * 32)).take 32)
            < 2 ^ ((bits.drop (p * 32)).take 32).length := bitsToInt_lt _ hmem
          _ ≤ 2 ^ 32 := Nat.pow_le_pow_right (by omega) hlen
    have hfinal := hfold (List.range 16) ⟨none, 0, [], []⟩
      (by intro p hp; rw [List.mem_range] at hp; omega)
      (by exact ⟨by norm_num, by norm_num, by simp⟩)
    obtain ⟨hfa, hff, hfe⟩ := hfinal
    simp only [List.mem_append] at hm
    rcases hm with hm | hm
    · exact hfe m hm
    · split at hm
      · exact emitKept_good _ _ _ _ hfa hff m hm
      · simp at hm

/-- Claim C2: a checked address codeword (top bit clear) latches
`full_addr = (bits[30..13] << 3) | frame_idx` and `function = bits[12..11]`;
consequently every message produced by `_decode_batch` (for the baud rates
the decoder tries) has `address < 2^21`, `function < 4`,
`baud ∈ {512, 1200, 2400}` and `msg_type ∈ {numeric, alpha}`. -/
theorem pocsag_address_extraction_and_ranges :
    (∀ baudRate frameIdx st codeword, frameIdx < 8 → codeword < 2 ^ 32 →
      codeword ≠ POCSAG_IDLE → bchCheck codeword = true →
      (codeword >>> 31) &&& 1 = 0 →
      (processCodeword baudRate frameIdx st codeword).currentAddress
          = some ((((codeword >>> 13) &&& 0x3FFFF) <<< 3) ||| frameIdx) ∧
        (processCodeword baudRate frameIdx st codeword).currentFunction
          = (codeword >>> 11) &&& 3) ∧
    (∀ baudRate bits m, baudRate ∈ POCSAG_BAUD_RATES → (∀ b ∈ bits, b ≤ 1) →
      m ∈ decodeBatch bits baudRate →
      m.address < 2 ^ 21 ∧ m.function_bits < 4 ∧
        m.baud_rate ∈ POCSAG_BAUD_RATES ∧
        (m.msg_type = "numeric" ∨ m.msg_type = "alpha")) := by
  constructor
  · intro baudRate frameIdx st cw hf hcw hidle hcheck htop
    have hmask : (cw >>> 13) &&& 0x7FFFF = (cw >>> 13) &&& 0x3FFFF := by
      have hlt31 := lt_two_pow_31_of_top_clear cw hcw htop
      have h18 : cw >>> 13 < 2 ^ 18 := by
        rw [Nat.shiftRight_eq_div_pow]
        omega
      have e1 : (0x7FFFF : Nat) = 2 ^ 19 - 1 := by norm_num
      have e2 : (0x3FFFF : Nat) = 2 ^ 18 - 1 := by norm_num
      rw [e1, e2, Nat.and_pow_two_sub_one_eq_mod, Nat.and_pow_two_sub_one_eq_mod,
        Nat.mod_eq_of_lt h18, Nat.mod_eq_of_lt (by omega)]
    unfold processCodeword
    rw [if_neg hidle]
    simp only [hcheck, if_pos, if_true]
    rw [if_pos htop]
    constructor
    · split <;> simp [hmask]
    · split <;> simp
  · intro baudRate bits m hbaud hb hm
    obtain ⟨h1, h2, h3, h4⟩ := decodeBatch_good bits baudRate hb m hm
    exact ⟨h1, h2, h3 ▸ hbaud, h4⟩

/-- A concrete valid address codeword (`addr18 = 677`, `function = 0`). -/
def sampleAddrCw : Nat := 0x0054A181

/-- A concrete valid message codeword (payload nibbles `1000` repeated). -/
def sampleMsgCw : Nat := 0xC44447B9

/-- A concrete 512-bit batch: address codeword, message codeword, 14 idles. -/
def sampleBatchBits : List Nat :=
  intToBits sampleAddrCw 32 ++ intToBits sampleMsgCw 32 ++
    (List.replicate 14 (intToBits POCSAG_IDLE 32)).flatten

set_option maxRecDepth 100000 in
/-- Witness for C2 on the concrete batch `sampleBatchBits`. -/
theorem pocsag_address_extraction_and_ranges_witness :
    ((processCodeword 512 0 ⟨none, 0, [], []⟩ sampleAddrCw).currentAddress
        = some ((((sampleAddrCw >>> 13) &&& 0x3FFFF) <<< 3) ||| 0)) ∧
    ((⟨5416, 0, ['\"'], "alpha", 512⟩ : PocsagMsg).address < 2 ^ 21 ∧
      (⟨5416, 0, ['\"'], "alpha", 512⟩ : PocsagMsg).function_bits < 4 ∧
      (⟨5416, 0, ['\"'], "alpha", 512⟩ : PocsagMsg).baud_rate ∈ POCSAG_BAUD_RATES ∧
      ((⟨5416, 0, ['\"'], "alpha", 512⟩ : PocsagMsg).msg_type = "numeric" ∨
        (⟨5416, 0, ['\"'], "alpha", 512⟩ : PocsagMsg).msg_type = "alpha")) := by
  constructor
  · exact (pocsag_address_extraction_and_ranges.1 512 0 ⟨none, 0, [], []⟩
      sampleAddrCw (by norm_num) (by decide) (by decide) (by decide)
      (by decide)).1
  · exact pocsag_address_extraction_and_ranges.2 512 sampleBatchBits
      ⟨5416, 0, ['\"'], "alpha", 512⟩ (by decide) (by decide) (by decide)

/-! #### Uncorrectable codewords (claim C9) -/

/-- A concrete uncorrectable codeword (`sampleAddrCw` with two data bits
flipped): parity passes or fails aside, no single flip zeroes its syndrome. -/
def badCodeword : Nat := 0x0054A3A1

/-- A 512-bit batch whose first codeword is uncorrectable, followed by a valid
address codeword, a valid message codeword and 13 idles. -/
def badBatchBits : List Nat :=
  intToBits badCodeword 32 ++ intToBits sampleAddrCw 32 ++
    intToBits sampleMsgCw 32 ++
    (List.replicate 13 (intToBits POCSAG_IDLE 32)).flatten

set_option maxRecDepth 100000 in
/-- Counterexample to claim C9 as stated: the first codeword of
`badBatchBits` is uncorrectable (`_bch_check` fails and `_bch_correct`
returns `None`), yet `_decode_batch` still emits a message from that very
batch — the batch is not skipped. -/
theorem pocsag_uncorrectable_batch_counterexample :
    bchCheck badCodeword = false ∧ bchCorrect badCodeword = none ∧
      bitsToInt ((badBatchBits.drop 0).take 32) = badCodeword ∧
      decodeBatch badBatchBits 512 ≠ [] := by
  exact ⟨by decide, by decide, by decide, by decide⟩

/-- Claim C9 amended: an uncorrectable codeword is skipped by `continue`,
leaving the decoder state — and therefore the rest of the batch — exactly as
it was; only that codeword is dropped, not the whole batch. -/
theorem pocsag_uncorrectable_skips_codeword (baudRate frameIdx : Nat)
    (st : BatchState) (cw : Nat) (hidle : cw ≠ POCSAG_IDLE)
    (hcheck : bchCheck cw = false) (hcorr : bchCorrect cw = none) :
    processCodeword baudRate frameIdx st cw = st := by
  unfold processCodeword
  rw [if_neg hidle]
  simp [hcheck, hcorr]

set_option maxRecDepth 8000 in
/-- Witness for the amended C9 at the concrete uncorrectable codeword. -/
theorem pocsag_uncorrectable_skips_codeword_witness :
    processCodeword 512 0 ⟨none, 0, [], []⟩ badCodeword = ⟨none, 0, [], []⟩ :=
  pocsag_uncorrectable_skips_codeword 512 0 ⟨none, 0, [], []⟩ badCodeword
    (by decide) (by decide) (by decide)

/-! ### Bounded IQ queue (`server.py` lines 79 and 337-351)

`asyncio.Queue(maxsize=20)` together with the `put_nowait` / `except QueueFull:
pass` pattern of `reader_loop`: when the queue is full the NEW chunk is
dropped. -/

/-- The queue capacity from `asyncio.Queue(maxsize=20)`. -/
def QUEUE_MAXSIZE : Nat := 20

/-- `put_nowait` under `except QueueFull: pass`: append when below capacity,
drop the new element otherwise. -/
def tryPutNowait (q : List α) (x : α) : List α :=
  if q.length < QUEUE_MAXSIZE then q ++ [x] else q

/-- Claim C6: the queue never exceeds its capacity of 20, and pushing chunks
`0..24` into an initially empty queue with the consumer paused retains
exactly chunks `0..19` in order. -/
theorem iq_queue_bounded_drop_newest :
    (∀ (q : List Nat) (x : Nat), q.length ≤ QUEUE_MAXSIZE →
      (tryPutNowait q x).length ≤ QUEUE_MAXSIZE) ∧
    (List.range 25).foldl tryPutNowait ([] : List Nat) = List.range 20 := by
  constructor
  · intro q x hq
    unfold tryPutNowait
    split
    · simpa using (by omega : q.length + 1 ≤ QUEUE_MAXSIZE)
    · exact hq
  · decide

/-- Witness for the capacity-invariant half of C6 at a full queue. -/
theorem iq_queue_bounded_drop_newest_witness :
    (tryPutNowait (List.range 20) 99).length ≤ QUEUE_MAXSIZE :=
  iq_queue_bounded_drop_newest.1 (List.range 20) 99 (by decide)

/-! ### rtl_tcp command framing (`rtl_client.py` lines 11-15 and 51-58)

`_send_cmd` writes `struct.pack(">BI", cmd_id, param)`: one command byte
followed by the parameter as a big-endian unsigned 32-bit integer. -/

def CMD_SET_FREQ : Nat := 0x01

def CMD_SET_SAMPLE_RATE : Nat := 0x02

def CMD_SET_GAIN_MODE : Nat := 0x03

def CMD_SET_GAIN : Nat := 0x04

def CMD_SET_AGC : Nat := 0x08

/-- The 5 bytes produced by `struct.pack(">BI", cmdId, param)`. -/
def packBI (cmdId param : Nat) : List Nat :=
  [cmdId, param / 2 ^ 24 % 256, param / 2 ^ 16 % 256, param / 2 ^ 8 % 256,
    param % 256]

/-- Counterexample to claim C7 as stated: `set_center_freq(100_300_000)` does
NOT write `0x01 0x05 0xFA 0x75 0xC0`; those bytes decode to `100_300_224`. -/
theorem rtl_command_bytes_counterexample :
    packBI CMD_SET_FREQ 100300000 ≠ [0x01, 0x05, 0xFA, 0x75, 0xC0] ∧
      0x05 * 2 ^ 24 + 0xFA * 2 ^ 16 + 0x75 * 2 ^ 8 + 0xC0 = 100300224 := by
  exact ⟨by decide, by norm_num⟩

/-- Claim C7 amended: every tuner command is a fixed 5-byte frame — the
command byte followed by the parameter in big-endian u32 order — and
`set_center_freq(100_300_000)` writes exactly `0x01 0x05 0xFA 0x74 0xE0`. -/
theorem rtl_command_framing (cmdId param : Nat) (hp : param < 2 ^ 32) :
    (packBI cmdId param).length = 5 ∧
      (packBI cmdId param).headI = cmdId ∧
      ((packBI cmdId param).tail.foldl (fun a b => a * 256 + b) 0 = param) ∧
      packBI CMD_SET_FREQ 100300000 = [0x01, 0x05, 0xFA, 0x74, 0xE0] := by
  refine ⟨rfl, rfl, ?_, by decide⟩
  simp only [packBI, List.tail_cons, List.foldl_cons, List.foldl_nil]
  omega

/-- Witness for the amended C7 at the concrete frequency parameter. -/
theorem rtl_command_framing_witness :
    (packBI CMD_SET_FREQ 100300000).length = 5 ∧
      (packBI CMD_SET_FREQ 100300000).tail.foldl (fun a b => a * 256 + b) 0
        = 100300000 := by
  have h := rtl_command_framing CMD_SET_FREQ 100300000 (by norm_num)
  exact ⟨h.1, h.2.2.1⟩

/-- ASCII uppercase of one character (Python `str.upper` restricted to the
ASCII strings the mode arguments are drawn from). -/
def pyUpperChar (c : Char) : Char :=
  if 'a' ≤ c ∧ c ≤ 'z' then Char.ofNat (c.toNat - 32) else c

/-- Python `s.upper()` for ASCII strings. -/
def pyUpper (s : String) : String := ⟨s.data.map pyUpperChar⟩

/-! ### Scanner state machine (`scanner.py`)

`ScanState`, `ScanMode`, the `Scanner` data and its externally callable
commands (`stop`, `skip`, `start`, `start_range`, `set_speed`,
`set_resume_delay`, `set_squelch`), plus one tick of `_state_machine_loop`.
Wall-clock readings (`time.monotonic()`) are passed in as a `now : ℚ`
parameter; `signal_db` read from the DSP is likewise a parameter of a tick. -/

inductive ScanState where
  | IDLE
  | SCANNING
  | MONITORING
  | HOLD
deriving DecidableEq, Repr

inductive ScanMode where
  | BOOKMARK
  | RANGE
deriving DecidableEq, Repr

/-- One entry of `bookmark_freqs` (`{freq, mode, label, category}`). -/
structure BookmarkEntry where
  freq : Nat
  mode : String
  label : String
  category : String
deriving DecidableEq, Repr

/-- The scanner's mutable data (`Scanner.__init__`), minus the task handle
and callbacks, which are pure control plumbing. -/
structure Scanner where
  state : ScanState
  scan_mode : ScanMode
  dwell_time : ℚ
  resume_delay : ℚ
  squelch_threshold : ℚ
  bookmark_freqs : List BookmarkEntry
  current_index : Nat
  skip_set : List Nat
  range_start : Nat
  range_end : Nat
  range_step : Nat
  range_current : Nat
  range_mode : String
  state_entered_at : ℚ
  hold_start : ℚ
deriving DecidableEq, Repr

/-- `_get_current_freq`. -/
def getCurrentFreq (sc : Scanner) : Nat :=
  match sc.scan_mode with
  | .BOOKMARK =>
    if sc.bookmark_freqs ≠ [] ∧ sc.current_index < sc.bookmark_freqs.length
    then (sc.bookmark_freqs.getD sc.current_index ⟨0, "", "", ""⟩).freq
    else 0
  | .RANGE => sc.range_current

/-- `_advance`. -/
def scanAdvance (sc : Scanner) : Scanner :=
  match sc.scan_mode with
  | .BOOKMARK =>
    if sc.bookmark_freqs ≠ [] then
      { sc with current_index := (sc.current_index + 1) % sc.bookmark_freqs.length }
    else sc
  | .RANGE =>
    if sc.range_current + sc.range_step > sc.range_end then
      { sc with range_current := sc.range_start }
    else { sc with range_current := sc.range_current + sc.range_step }

/-- `_wrapped_around`. -/
def wrappedAround (sc : Scanner) : Bool :=
  match sc.scan_mode with
  | .RANGE => sc.range_current > sc.range_end
  | .BOOKMARK => false

/-- `_transition(new_state)` at monotonic time `now`. -/
def scanTransition (sc : Scanner) (s : ScanState) (now : ℚ) : Scanner :=
  let sc := { sc with state := s, state_entered_at := now }
  if s = .HOLD then { sc with hold_start := now } else sc

/-- `stop()`: force IDLE (task cancellation is control plumbing). -/
def scanStop (sc : Scanner) : Scanner := { sc with state := .IDLE }

/-- Python `set.add` on the modelled skip set. -/
def insertFreq (s : List Nat) (f : Nat) : List Nat :=
  if f ∈ s then s else f :: s

/-- `skip()`: add the current frequency (when non-zero) to the skip set;
from MONITORING/HOLD, advance and transition to SCANNING. -/
def scanSkip (sc : Scanner) (now : ℚ) : Scanner :=
  let f := getCurrentFreq sc
  let sc := if f ≠ 0 then { sc with skip_set := insertFreq sc.skip_set f } else sc
  if sc.state = .MONITORING ∨ sc.state = .HOLD then
    scanTransition (scanAdvance sc) .SCANNING now
  else sc

/-- `set_speed(dwell_ms)`: clamp to `[0.05, 0.5]` seconds. -/
def setSpeed (sc : Scanner) (dwell_ms : ℚ) : Scanner :=
  { sc with dwell_time := max (1 / 20) (min (1 / 2) (dwell_ms / 1000)) }

/-- `set_resume_delay(delay_s)`: clamp to `[0.5, 10]` seconds. -/
def setResumeDelay (sc : Scanner) (delay_s : ℚ) : Scanner :=
  { sc with resume_delay := max (1 / 2) (min 10 delay_s) }

/-- `set_squelch(threshold_db)`. -/
def setScannerSquelch (sc : Scanner) (threshold_db : ℚ) : Scanner :=
  { sc with squelch_threshold := threshold_db }

/-- `start(category_name)`: the bookmark list loaded from the file is passed
in as `freqs`; entries with `freq = 0` are filtered out as in
`load_bookmark_freqs`.  A non-IDLE scanner is stopped first. -/
def scanStart (sc : Scanner) (freqs : List BookmarkEntry) (now : ℚ) : Scanner :=
  let sc := if sc.state ≠ .IDLE then scanStop sc else sc
  let sc := { sc with scan_mode := .BOOKMARK,
                      bookmark_freqs := freqs.filter (fun b => b.freq > 0) }
  if sc.bookmark_freqs = [] then sc
  else scanTransition { sc with skip_set := [], current_index := 0 } .SCANNING now

/-- `start_range(start_freq, end_freq, step, mode)`. -/
def scanStartRange (sc : Scanner) (startFreq endFreq step : Nat) (mode : String)
    (now : ℚ) : Scanner :=
  let sc := if sc.state ≠ .IDLE then scanStop sc else sc
  let sc := { sc with scan_mode := .RANGE, range_start := startFreq,
                      range_end := endFreq, range_step := max 1000 step,
                      range_current := startFreq, range_mode := pyUpper mode,
                      skip_set := [] }
  scanTransition sc .SCANNING now

/-- One 50 ms tick of `_state_machine_loop`: the loop body evaluated at
monotonic time `now` with DSP signal level `sigDb`, threading the local
`needs_tune` flag.  A `break` out of the loop lands in the `finally:` block,
which forces IDLE. -/
def scanTick (sc : Scanner) (needsTune : Bool) (now sigDb : ℚ) :
    Scanner × Bool :=
  match sc.state with
  | .IDLE => (sc, needsTune)
  | .SCANNING =>
    let f := getCurrentFreq sc
    if f ≠ 0 ∧ f ∈ sc.skip_set then
      let sc := scanAdvance sc
      if wrappedAround sc then ({ sc with state := .IDLE }, needsTune)
      else (sc, true)
    else
      let p := if needsTune then ({ sc with state_entered_at := now }, false)
               else (sc, needsTune)
      let sc := p.1
      if now - sc.state_entered_at < sc.dwell_time then (sc, p.2)
      else if sigDb > sc.squelch_threshold then
        (scanTransition sc .MONITORING now, p.2)
      else
        let sc := scanAdvance sc
        let sc := if wrappedAround sc ∧ sc.scan_mode = .RANGE then
                    { sc with range_current := sc.range_start }
                  else sc
        (sc, true)
  | .MONITORING =>
    if sigDb < sc.squelch_threshold then (scanTransition sc .HOLD now, needsTune)
    else (sc, needsTune)
  | .HOLD =>
    if sigDb > sc.squelch_threshold then
      (scanTransition sc .MONITORING now, needsTune)
    else if now - sc.hold_start ≥ sc.resume_delay then
      let sc := scanAdvance sc
      let sc := if sc.scan_mode = .RANGE ∧ wrappedAround sc then
                  { sc with range_current := sc.range_start }
                else sc
      (scanTransition sc .SCANNING now, true)
    else (sc, needsTune)

theorem scanTransition_state (sc : Scanner) (s : ScanState) (now : ℚ) :
    (scanTransition sc s now).state = s := by
  unfold scanTransition
  dsimp only
  split <;> rfl

/-- A concrete scanner sitting in MONITORING (range mode). -/
def scannerMonitoring : Scanner :=
  ⟨.MONITORING, .RANGE, 1 / 10, 2, -60, [], 0, [], 88000000, 108000000,
    100000, 98000000, "FM", 0, 0⟩

/-- Counterexample to claim C8 as stated: `skip()` is an external command
other than STOP, yet it changes the scanner state (MONITORING → SCANNING)
between ticks. -/
theorem scanner_skip_changes_state_counterexample :
    scannerMonitoring.state = ScanState.MONITORING ∧
      (scanSkip scannerMonitoring 0).state ≠ scannerMonitoring.state := by
  exact ⟨rfl, by decide⟩

/-- Claim C8 amended: the state space is exactly
{IDLE, SCANNING, MONITORING, HOLD}; besides the scanner's own tick, the
external commands that change the state are STOP (forces IDLE from any
state), SKIP (from MONITORING/HOLD advances and forces SCANNING; otherwise
leaves the state alone) and START/START_RANGE (which enter SCANNING, or
leave/force IDLE when there is nothing to scan); the remaining external
commands (`set_speed`, `set_resume_delay`, `set_squelch`) never change the
state. -/
theorem scanner_state_transitions :
    (∀ s : ScanState, s = .IDLE ∨ s = .SCANNING ∨ s = .MONITORING ∨ s = .HOLD) ∧
    (∀ sc : Scanner, (scanStop sc).state = .IDLE) ∧
    (∀ (sc : Scanner) (now : ℚ), sc.state = .MONITORING ∨ sc.state = .HOLD →
      (scanSkip sc now).state = .SCANNING) ∧
    (∀ (sc : Scanner) (now : ℚ), sc.state ≠ .MONITORING → sc.state ≠ .HOLD →
      (scanSkip sc now).state = sc.state) ∧
    (∀ (sc : Scanner) (v : ℚ), (setSpeed sc v).state = sc.state ∧
      (setResumeDelay sc v).state = sc.state ∧
      (setScannerSquelch sc v).state = sc.state) ∧
    (∀ (sc : Scanner) (freqs : List BookmarkEntry) (now : ℚ),
      (scanStart sc freqs now).state = .SCANNING ∨
        (scanStart sc freqs now).state = .IDLE) ∧
    (∀ (sc : Scanner) (a b c : Nat) (m : String) (now : ℚ),
      (scanStartRange sc a b c m now).state = .SCANNING) := by
  refine ⟨?_, ?_, ?_, ?_, ?_, ?_, ?_⟩
  · intro s; cases s <;> simp
  · intro sc; rfl
  · intro sc now hst
    unfold scanSkip scanTransition scanAdvance
    dsimp only
    split_ifs <;> simp_all
  · intro sc now h1 h2
    unfold scanSkip scanTransition scanAdvance
    dsimp only
    split_ifs <;> simp_all
  · intro sc v; exact ⟨rfl, rfl, rfl⟩
  · intro sc freqs now
    unfold scanStart scanStop scanTransition
    dsimp only
    split_ifs <;> simp_all
  · intro sc a b c m now
    exact scanTransition_state _ _ _

/-- Witness for the amended C8 at concrete scanners. -/
theorem scanner_state_transitions_witness :
    (scanSkip scannerMonitoring 0).state = ScanState.SCANNING ∧
      (scanStop scannerMonitoring).state = ScanState.IDLE :=
  ⟨scanner_state_transitions.2.2.1 scannerMonitoring 0 (Or.inl rfl),
    scanner_state_transitions.2.1 scannerMonitoring⟩

/-! ### DSP engine (`dsp.py`)

`RadioDSP` over `ℚ` (float32/float64 idealised as exact rationals).  Complex
samples are pairs of rationals.  The transcendental numpy primitives are
oracle parameters: `ang` for `np.angle`, `absC` for the complex magnitude
`np.abs`, `log10O` for `np.log10`, `fftO` for `np.fft.fft`.  Filter tap
values (produced by `scipy.firwin` at startup) live in the engine state, so
theorems quantify over them. -/

/-- A complex sample (numpy complex64/128 idealised over `ℚ`). -/
structure CQ where
  re : ℚ
  im : ℚ
deriving DecidableEq, Repr

instance : Zero CQ := ⟨⟨0, 0⟩⟩

instance : Add CQ := ⟨fun a b => ⟨a.re + b.re, a.im + b.im⟩⟩

instance : SMul ℚ CQ := ⟨fun c a => ⟨c * a.re, c * a.im⟩⟩

theorem CQ.smul_def (c : ℚ) (a : CQ) : c • a = ⟨c * a.re, c * a.im⟩ := rfl

theorem CQ.add_def (a b : CQ) : a + b = ⟨a.re + b.re, a.im + b.im⟩ := rfl

theorem CQ.zero_def : (0 : CQ) = ⟨0, 0⟩ := rfl

/-- Complex multiplication. -/
def CQ.mul (a b : CQ) : CQ :=
  ⟨a.re * b.re - a.im * b.im, a.re * b.im + a.im * b.re⟩

/-- Complex conjugation (`np.conj`). -/
def CQ.conj (a : CQ) : CQ := ⟨a.re, -a.im⟩

/-- One sample of `scipy.signal.lfilter(b, 1.0, x, zi=z)` on a complex
stream with real taps (direct form II transposed, FIR case): the output is
`b₀·x + z₀` and state entry `i` becomes `b_{i+1}·x + z_{i+1}` (with `z` read
as `0` past its end). -/
def firStepC (taps : List ℚ) (z : List CQ) (x : CQ) : CQ × List CQ :=
  match taps with
  | [] => (0, z)
  | b0 :: brest =>
    (b0 • x + z.headD 0,
      List.zipWith (fun bi zi => bi • x + zi) brest (z.tail ++ [0]))

/-- `lfilter` over a whole complex chunk, returning outputs and final state. -/
def firFilterC (taps : List ℚ) (z : List CQ) : List CQ → List CQ × List CQ
  | [] => ([], z)
  | x :: xs =>
    let p := firStepC taps z x
    let q := firFilterC taps p.2 xs
    (p.1 :: q.1, q.2)

/-- `firStepC` for a real-valued stream. -/
def firStepR (taps : List ℚ) (z : List ℚ) (x : ℚ) : ℚ × List ℚ :=
  match taps with
  | [] => (0, z)
  | b0 :: brest =>
    (b0 * x + z.headD 0,
      List.zipWith (fun bi zi => bi * x + zi) brest (z.tail ++ [0]))

/-- `lfilter` over a whole real chunk. -/
def firFilterR (taps : List ℚ) (z : List ℚ) : List ℚ → List ℚ × List ℚ
  | [] => ([], z)
  | x :: xs =>
    let p := firStepR taps z x
    let q := firFilterR taps p.2 xs
    (p.1 :: q.1, q.2)

/-- One sample of the de-emphasis IIR `lfilter([b0], [1, a1], x, zi=z)`
(direct form II transposed, order 1): output `y = b0·x + z₀`, new state
`[-a1·y]`. -/
def deemphStep (b0 a1 : ℚ) (z : List ℚ) (x : ℚ) : ℚ × List ℚ :=
  (b0 * x + z.headD 0, [-(a1 * (b0 * x + z.headD 0))])

/-- The de-emphasis filter over a whole chunk. -/
def deemphFilter (b0 a1 : ℚ) (z : List ℚ) : List ℚ → List ℚ × List ℚ
  | [] => ([], z)
  | x :: xs =>
    let p := deemphStep b0 a1 z x
    let q := deemphFilter b0 a1 p.2 xs
    (p.1 :: q.1, q.2)

/-- numpy strided slice `arr[::k]`: every `k`-th element starting at 0. -/
def strideEvery (k : Nat) (l : List α) : List α :=
  (l.enum.filter (fun p => p.1 % k == 0)).map Prod.snd

/-- `np.max(np.abs(audio))`, with `0` for the empty chunk (unreachable in
the source, where `np.max` of an empty array raises); all tracked values are
absolute values, so folding from `0` agrees with `np.max` on non-empty input. -/
def maxAbs (l : List ℚ) : ℚ := l.foldl (fun m x => max m |x|) 0

/-- `np.mean`. -/
def listMean (l : List ℚ) : ℚ := l.sum / (l.length : ℚ)

/-- The `RadioDSP` instance state (`dsp.py` `__init__`): mode, thresholds,
FFT bookkeeping, decimation factors, the five FIR tap/state pairs, the
de-emphasis coefficients `b = [b0]`, `a = [1, a1]` and state, and the
auto-scaling floor/ceiling. -/
structure RadioDSP where
  sample_rate : ℚ
  audio_rate : ℚ
  fft_size : Nat
  mode : String
  squelch_threshold : ℚ
  signal_level : ℚ
  fft_window : List ℚ
  prev_sample : CQ
  intermediate_rate : ℚ
  dec1_factor : Nat
  dec2_factor : Nat
  dec1_taps : List ℚ
  dec1_zi : List CQ
  wbfm_taps : List ℚ
  wbfm_zi : List CQ
  nbfm_taps : List ℚ
  nbfm_zi : List CQ
  am_taps : List ℚ
  am_zi : List CQ
  ssb_taps : List ℚ
  ssb_zi : List CQ
  deemph_b0 : ℚ
  deemph_a1 : ℚ
  deemph_zi : List ℚ
  dec2_taps : List ℚ
  dec2_zi : List ℚ
  spec_min : ℚ
  spec_max : ℚ
  ssb_zi_i : Option (List ℚ)
  ssb_zi_q : Option (List ℚ)
deriving DecidableEq, Repr

/-- `RadioDSP.MODES`. -/
def MODES : List String := ["AM", "FM", "NFM", "USB", "LSB"]

/-- `set_mode(mode)`: uppercase, and when valid, store the mode and zero
`prev_sample`, the de-emphasis state and all six FIR delay lines
(`self._x_zi[:] = 0` zeroes in place, keeping lengths); invalid modes leave
the engine untouched. -/
def setMode (st : RadioDSP) (modeArg : String) : RadioDSP :=
  let mode := pyUpper modeArg
  if mode ∈ MODES then
    { st with
      mode := mode,
      prev_sample := 0,
      deemph_zi := List.replicate st.deemph_zi.length 0,
      wbfm_zi := List.replicate st.wbfm_zi.length 0,
      nbfm_zi := List.replicate st.nbfm_zi.length 0,
      am_zi := List.replicate st.am_zi.length 0,
      ssb_zi := List.replicate st.ssb_zi.length 0,
      dec1_zi := List.replicate st.dec1_zi.length 0,
      dec2_zi := List.replicate st.dec2_zi.length 0,
      ssb_zi_i := none,
      ssb_zi_q := none }
  else st

/-- `set_squelch(threshold_db)`. -/
def setSquelch (st : RadioDSP) (threshold_db : ℚ) : RadioDSP :=
  { st with squelch_threshold := threshold_db }

/-- `_demod_wbfm`: channel filter, FM discriminator with one-sample carry,
then de-emphasis.  `iq_ext[1:] * conj(iq_ext[:-1])` pairs each filtered
sample with its predecessor (the carried `prev_sample` in front). -/
def demodWbfm (ang : CQ → ℚ) (st : RadioDSP) (iq : List CQ) :
    List ℚ × RadioDSP :=
  let f := firFilterC st.wbfm_taps st.wbfm_zi iq
  let prev2 := f.1.getLastD st.prev_sample
  let audio := List.zipWith (fun cur prv => ang (CQ.mul cur (CQ.conj prv)))
    f.1 (st.prev_sample :: f.1)
  let d := deemphFilter st.deemph_b0 st.deemph_a1 st.deemph_zi audio
  (d.1, { st with wbfm_zi := f.2, prev_sample := prev2, deemph_zi := d.2 })

/-- `_demod_nbfm`: narrow channel filter, FM discriminator, 15× gain. -/
def demodNbfm (ang : CQ → ℚ) (st : RadioDSP) (iq : List CQ) :
    List ℚ × RadioDSP :=
  let f := firFilterC st.nbfm_taps st.nbfm_zi iq
  let prev2 := f.1.getLastD st.prev_sample
  let audio := List.zipWith (fun cur prv => ang (CQ.mul cur (CQ.conj prv)))
    f.1 (st.prev_sample :: f.1)
  (audio.map (fun x => x * 15), { st with nbfm_zi := f.2, prev_sample := prev2 })

/-- `_demod_am`: channel filter, envelope (`np.abs`), mean removal. -/
def demodAm (absC : CQ → ℚ) (st : RadioDSP) (iq : List CQ) :
    List ℚ × RadioDSP :=
  let f := firFilterC st.am_taps st.am_zi iq
  let envelope := f.1.map absC
  let m := listMean envelope
  (envelope.map (fun x => x - m), { st with am_zi := f.2 })

/-- `_demod_ssb`: channel filter, then the finally-emitted audio is `Re` for
USB and `Re + Im` for LSB (the function's earlier `audio` assignments are
overwritten before use), with the 5× gain applied to both. -/
def demodSsb (st : RadioDSP) (iq : List CQ) : List ℚ × RadioDSP :=
  let f := firFilterC st.ssb_taps st.ssb_zi iq
  let audio := if st.mode = "USB" then f.1.map (fun z => z.re)
               else f.1.map (fun z => z.re + z.im)
  (audio.map (fun x => x * 5), { st with ssb_zi := f.2 })

/-- The `if/elif` mode dispatch of `demodulate` (stage 2+3). -/
def demodDispatch (ang absC : CQ → ℚ) (st : RadioDSP) (iqDec : List CQ) :
    List ℚ × RadioDSP :=
  if st.mode = "FM" then demodWbfm ang st iqDec
  else if st.mode = "NFM" then demodNbfm ang st iqDec
  else if st.mode = "AM" then demodAm absC st iqDec
  else if st.mode = "USB" ∨ st.mode = "LSB" then demodSsb st iqDec
  else (List.replicate iqDec.length 0, st)

/-- Stages 1-4 of `demodulate`: anti-aliasing FIR + decimation, mode
dispatch, audio FIR + decimation.  `none` models the two early
`return np.zeros(0)` paths (empty input, or empty decimated input). -/
def demodPipeline (ang absC : CQ → ℚ) (st : RadioDSP) (iq : List CQ) :
    Option (List ℚ) × RadioDSP :=
  if iq = [] then (none, st)
  else
    let f1 := firFilterC st.dec1_taps st.dec1_zi iq
    let st1 := { st with dec1_zi := f1.2 }
    let iqDec := strideEvery st1.dec1_factor f1.1
    if iqDec = [] then (none, st1)
    else
      let p := demodDispatch ang absC st1 iqDec
      let f2 := firFilterR p.2.dec2_taps p.2.dec2_zi p.1
      (some (strideEvery p.2.dec2_factor f2.1), { p.2 with dec2_zi := f2.2 })

/-- Stage 5 of `demodulate`: squelch against the most recent `signal_level`,
then peak normalisation to `0.8` when the peak exceeds `0.001`. -/
def demodSquelchNormalize (st : RadioDSP) (audio48k : List ℚ) : List ℚ :=
  if st.signal_level < st.squelch_threshold then
    List.replicate audio48k.length 0
  else
    let peak := maxAbs audio48k
    if peak > 1 / 1000 then audio48k.map (fun x => x / (peak / (4 / 5)))
    else audio48k

/-- `demodulate(iq)`: the full pipeline with its early returns. -/
def demodulate (ang absC : CQ → ℚ) (st : RadioDSP) (iq : List CQ) :
    List ℚ × RadioDSP :=
  match demodPipeline ang absC st iq with
  | (none, st2) => ([], st2)
  | (some audio48k, st2) => (demodSquelchNormalize st2 audio48k, st2)

/-! #### FFT path (`compute_fft`) -/

/-- `np.clip(x, lo, hi)`. -/
def clip (x lo hi : ℚ) : ℚ := min (max x lo) hi

/-- `np.fft.fftshift`: roll by `n // 2`. -/
def fftshift (l : List α) : List α :=
  l.drop (l.length - l.length / 2) ++ l.take (l.length - l.length / 2)

/-- `np.max` over a non-empty list (with `0` for the empty case, which the
source guards against). -/
def listMax : List ℚ → ℚ
  | [] => 0
  | x :: xs => xs.foldl max x

/-- Ascending insertion of one element into a sorted list. -/
def insertSorted (x : ℚ) : List ℚ → List ℚ
  | [] => [x]
  | y :: ys => if x ≤ y then x :: y :: ys else y :: insertSorted x ys

/-- Ascending sort (extensionally the sorted order `np.percentile` uses). -/
def sortAsc (l : List ℚ) : List ℚ := l.foldr insertSorted []

/-- `np.percentile(a, q)` with the default linear interpolation:
index `h = (n-1)·q/100` into the sorted data, interpolating between the
neighbouring ranks. -/
def percentile (l : List ℚ) (q : ℚ) : ℚ :=
  let s := sortAsc l
  match s with
  | [] => 0
  | _ =>
    let h : ℚ := ((s.length : ℚ) - 1) * q / 100
    let lo := (⌊h⌋).toNat
    let hi := (⌈h⌉).toNat
    let a := s.getD lo 0
    let b := s.getD hi 0
    a + (h - (lo : ℚ)) * (b - a)

/-- `round(x, 1)` used for the reported dB scalars. -/
def round1 (x : ℚ) : ℚ := ((⌊x * 10 + 1 / 2⌋ : ℚ)) / 10

/-- The dictionary `compute_fft` returns. -/
structure Spectrum where
  magnitudes : List ℚ
  min_db : ℚ
  max_db : ℚ
  signal_db : ℚ
deriving DecidableEq, Repr

/-- The auto-scale block of `compute_fft`: exponential smoothing of
`spec_min`/`spec_max` towards the current percentiles (fast factor `0.3`
towards expansion, slow factor `0.05` otherwise), then the 20 dB minimum
span: if `spec_max - spec_min < 20` recenter to `±10` around their mean. -/
def autoScale (specMin specMax curMin curMax : ℚ) : ℚ × ℚ :=
  let sm0 := specMin
    + (if curMin < specMin then (3 : ℚ) / 10 else 1 / 20) * (curMin - specMin)
  let sx0 := specMax
    + (if curMax > specMax then (3 : ℚ) / 10 else 1 / 20) * (curMax - specMax)
  if sx0 - sm0 < 20 then ((sx0 + sm0) / 2 - 10, (sx0 + sm0) / 2 + 10)
  else (sm0, sx0)

/-- `compute_fft(iq)`: pad to `fft_size`, window, FFT (oracle `fftO`),
fftshift, magnitudes in dB (`20·log10(|X| + 1e-12)` through the oracles),
signal level from the centre slice, auto-scaled floor/ceiling with the
20 dB minimum span, then clipped normalisation. -/
def computeFFT (fftO : List CQ → List CQ) (absO : CQ → ℚ) (log10O : ℚ → ℚ)
    (st : RadioDSP) (iq : List CQ) : Spectrum × RadioDSP :=
  let n := st.fft_size
  let iqP := if iq.length < n then iq ++ List.replicate (n - iq.length) 0 else iq
  let chunk := List.zipWith (fun z w => w • z) (iqP.drop (iqP.length - n))
    st.fft_window
  let spectrum := fftshift (fftO chunk)
  let magDb := spectrum.map (fun z => 20 * log10O (absO z + 1 / 10 ^ 12))
  let dbfsOffset := 20 * log10O (n : ℚ)
  let center := (magDb.drop (n * 45 / 100)).take (n * 55 / 100 - n * 45 / 100)
  let signalLevel := if center ≠ [] then listMax center - dbfsOffset else -100
  let scaled := autoScale st.spec_min st.spec_max (percentile magDb 2)
    (percentile magDb (499 / 5) + 10)
  let normalized := magDb.map
    (fun x => clip ((x - scaled.1) / (scaled.2 - scaled.1)) 0 1)
  (⟨normalized, round1 scaled.1, round1 scaled.2, round1 signalLevel⟩,
    { st with signal_level := signalLevel, spec_min := scaled.1,
              spec_max := scaled.2 })

/-! #### DSP lemmas and claims C3, C4, C5, C10 -/

theorem firFilterC_fst_length (taps : List ℚ) : ∀ (z : List CQ) (l : List CQ),
    (firFilterC taps z l).1.length = l.length := by
  intro z l
  induction l generalizing z with
  | nil => rfl
  | cons x xs ih => simp [firFilterC, ih]

/-- `arr[::k]` always keeps the first element (`0 % k = 0`). -/
theorem strideEvery_ne_nil (k : Nat) (l : List α) (hl : l ≠ []) :
    strideEvery k l ≠ [] := by
  match l with
  | [] => exact absurd rfl hl
  | x :: xs =>
    unfold strideEvery
    simp [List.enum_cons, List.filter_cons, Nat.zero_mod]

/-- The mode dispatch only touches filter memories, never the squelch data. -/
theorem demodDispatch_preserves (ang absC : CQ → ℚ) (st : RadioDSP)
    (iqDec : List CQ) :
    (demodDispatch ang absC st iqDec).2.signal_level = st.signal_level ∧
      (demodDispatch ang absC st iqDec).2.squelch_threshold
        = st.squelch_threshold := by
  unfold demodDispatch demodWbfm demodNbfm demodAm demodSsb
  split_ifs <;> exact ⟨rfl, rfl⟩

/-- On a non-empty chunk the pipeline reaches stage 5 (no early return), and
it leaves `signal_level` and `squelch_threshold` untouched. -/
theorem demodPipeline_some (ang absC : CQ → ℚ) (st : RadioDSP) (iq : List CQ)
    (hiq : iq ≠ []) :
    ∃ a48 st2, demodPipeline ang absC st iq = (some a48, st2) ∧
      st2.signal_level = st.signal_level ∧
      st2.squelch_threshold = st.squelch_threshold := by
  unfold demodPipeline
  rw [if_neg hiq]
  dsimp only
  rw [if_neg (strideEvery_ne_nil _ _ (by
    intro h0
    have hl := firFilterC_fst_length st.dec1_taps st.dec1_zi iq
    rw [h0] at hl
    cases iq with
    | nil => exact hiq rfl
    | cons a as => simp at hl))]
  refine ⟨_, _, rfl, ?_, ?_⟩
  · exact (demodDispatch_preserves ang absC _ _).1
  · exact (demodDispatch_preserves ang absC _ _).2

theorem maxAbs_map_div (l : List ℚ) (c : ℚ) (hc : 0 < c) :
    maxAbs (l.map (fun x => x / c)) = maxAbs l / c := by
  have aux : ∀ (l : List ℚ) (m : ℚ),
      (l.map (fun x => x / c)).foldl (fun a x => max a |x|) (m / c)
        = (l.foldl (fun a x => max a |x|) m) / c := by
    intro l
    induction l with
    | nil => intro m; rfl
    | cons x xs ih =>
      intro m
      simp only [List.map_cons, List.foldl_cons]
      rw [abs_div, abs_of_pos hc, max_div_div_right hc.le]
      exact ih (max m |x|)
  unfold maxAbs
  calc (l.map fun x => x / c).foldl (fun m x => max m |x|) 0
      = (l.map fun x => x / c).foldl (fun m x => max m |x|) (0 / c) := by
        rw [zero_div]
    _ = (l.foldl (fun m x => max m |x|) 0) / c := aux l 0

/-- Claim C3: on a non-empty IQ chunk, if the most recent `signal_level` is
below the squelch threshold then `demodulate` returns an all-zero vector of
the same length as the non-squelched stage-4 output; otherwise, when the
stage-4 peak exceeds `0.001`, the output is normalised so its peak is `0.8`. -/
theorem demodulate_squelch_and_normalize (ang absC : CQ → ℚ) (st : RadioDSP)
    (iq : List CQ) (hiq : iq ≠ []) (hd1 : 1 ≤ st.dec1_factor)
    (hd2 : 1 ≤ st.dec2_factor) :
    ∃ a48 : List ℚ, (demodPipeline ang absC st iq).1 = some a48 ∧
      (st.signal_level < st.squelch_threshold →
        (demodulate ang absC st iq).1 = List.replicate a48.length 0) ∧
      (¬st.signal_level < st.squelch_threshold → maxAbs a48 > 1 / 1000 →
        maxAbs (demodulate ang absC st iq).1 = 4 / 5) := by
  obtain ⟨a48, st2, hp, hsig, hsq⟩ := demodPipeline_some ang absC st iq hiq
  refine ⟨a48, by rw [hp], ?_, ?_⟩
  · intro hlt
    unfold demodulate
    rw [hp]
    dsimp only
    unfold demodSquelchNormalize
    rw [if_pos (by rw [hsig, hsq]; exact hlt)]
  · intro hge hpk
    unfold demodulate
    rw [hp]
    dsimp only
    unfold demodSquelchNormalize
    rw [if_neg (by rw [hsig, hsq]; exact hge)]
    dsimp only
    rw [if_pos hpk]
    have hpos : (0 : ℚ) < maxAbs a48 :=
      lt_trans (by norm_num) hpk
    have hc : (0 : ℚ) < maxAbs a48 / (4 / 5) :=
      div_pos hpos (by norm_num)
    rw [maxAbs_map_div a48 (maxAbs a48 / (4 / 5)) hc]
    rw [div_div_eq_mul_div, mul_comm, mul_div_assoc,
      div_self (ne_of_gt hpos), mul_one]

/-- A concrete small engine state (identity taps, factors 1, USB mode). -/
def dspUSB : RadioDSP :=
  { sample_rate := 2400000, audio_rate := 48000, fft_size := 2,
    mode := "USB", squelch_threshold := -60, signal_level := -10,
    fft_window := [1, 1], prev_sample := 0, intermediate_rate := 240000,
    dec1_factor := 1, dec2_factor := 1,
    dec1_taps := [1], dec1_zi := [],
    wbfm_taps := [1], wbfm_zi := [], nbfm_taps := [1], nbfm_zi := [],
    am_taps := [1], am_zi := [], ssb_taps := [1], ssb_zi := [],
    deemph_b0 := 1, deemph_a1 := 0, deemph_zi := [0],
    dec2_taps := [1], dec2_zi := [],
    spec_min := -80, spec_max := -20, ssb_zi_i := none, ssb_zi_q := none }

/-- Witness for C3: concrete chunk `[1]` through `dspUSB` normalises to
peak `0.8`. -/
theorem demodulate_squelch_and_normalize_witness :
    maxAbs (demodulate (fun _ => 0) (fun _ => 0) dspUSB [⟨1, 0⟩]).1 = 4 / 5 := by
  obtain ⟨a48, hp, _hz, hnorm⟩ := demodulate_squelch_and_normalize
    (fun _ => 0) (fun _ => 0) dspUSB [⟨1, 0⟩] (by simp) (by decide) (by decide)
  have h5 : a48 = [5] := by
    have h2 : (demodPipeline (fun _ => 0) (fun _ => 0) dspUSB [⟨1, 0⟩]).1
        = some [5] := by
      simp [demodPipeline, demodDispatch, demodSsb, demodAm, demodWbfm,
        demodNbfm, firFilterC, firStepC, firFilterR, firStepR, strideEvery,
        dspUSB, CQ.smul_def, CQ.add_def, CQ.zero_def, List.enum, List.enumFrom]
    rw [hp, Option.some_inj] at h2
    exact h2
  exact hnorm (by decide) (by rw [h5]; norm_num [maxAbs])

/-- A concrete engine state with non-zero filter memories (FM mode). -/
def dspFMstate : RadioDSP :=
  { dspUSB with
    mode := "FM", wbfm_zi := [⟨1, 2⟩], nbfm_zi := [⟨5, 6⟩],
    dec1_zi := [⟨3, 4⟩], deemph_zi := [7], dec2_zi := [9],
    prev_sample := ⟨2, 3⟩ }

/-- Counterexample to claim C4 as stated: `"fm"` is a valid mode string
(its uppercase form is in MODES), but `set_mode("fm")` stores `"FM"`, not
the string `m = "fm"` itself. -/
theorem set_mode_stores_uppercase_counterexample :
    pyUpper "fm" ∈ MODES ∧ (setMode dspUSB "fm").mode ≠ "fm" := by
  exact ⟨by decide, by decide⟩

/-- Claim C4 amended: for every string whose uppercase form is a valid mode,
`set_mode` zeroes all FIR delay lines (stage-1 decimator, the four channel
filters, stage-2 audio decimator), zeroes the IIR de-emphasis state, resets
`prev_sample` to 0, and stores the UPPERCASED mode string. -/
theorem set_mode_valid_resets (st : RadioDSP) (m : String)
    (hm : pyUpper m ∈ MODES) :
    (setMode st m).dec1_zi = List.replicate st.dec1_zi.length 0 ∧
      (setMode st m).wbfm_zi = List.replicate st.wbfm_zi.length 0 ∧
      (setMode st m).nbfm_zi = List.replicate st.nbfm_zi.length 0 ∧
      (setMode st m).am_zi = List.replicate st.am_zi.length 0 ∧
      (setMode st m).ssb_zi = List.replicate st.ssb_zi.length 0 ∧
      (setMode st m).dec2_zi = List.replicate st.dec2_zi.length 0 ∧
      (setMode st m).deemph_zi = List.replicate st.deemph_zi.length 0 ∧
      (setMode st m).prev_sample = 0 ∧
      (setMode st m).mode = pyUpper m := by
  unfold setMode
  dsimp only
  rw [if_pos hm]
  exact ⟨rfl, rfl, rfl, rfl, rfl, rfl, rfl, rfl, rfl⟩

/-- Witness for the amended C4 at a state with non-zero filter memories. -/
theorem set_mode_valid_resets_witness :
    (setMode dspFMstate "am").wbfm_zi
        = List.replicate dspFMstate.wbfm_zi.length 0 ∧
      (setMode dspFMstate "am").prev_sample = 0 ∧
      (setMode dspFMstate "am").mode = pyUpper "am" :=
  ⟨(set_mode_valid_resets dspFMstate "am" (by decide)).2.1,
    (set_mode_valid_resets dspFMstate "am" (by decide)).2.2.2.2.2.2.2.1,
    (set_mode_valid_resets dspFMstate "am" (by decide)).2.2.2.2.2.2.2.2⟩

/-- Claim C10: for every string whose uppercase form is not a valid mode,
`set_mode` leaves the whole engine state unchanged. -/
theorem set_mode_invalid_noop (st : RadioDSP) (m : String)
    (hm : pyUpper m ∉ MODES) : setMode st m = st := by
  unfold setMode
  dsimp only
  rw [if_neg hm]

/-- Witness for C10 at a concrete invalid mode string. -/
theorem set_mode_invalid_noop_witness : setMode dspFMstate "QRP" = dspFMstate :=
  set_mode_invalid_noop dspFMstate "QRP" (by decide)

theorem fftshift_length (l : List α) : (fftshift l).length = l.length := by
  simp [fftshift]

theorem clip_unit (x : ℚ) : 0 ≤ clip x 0 1 ∧ clip x 0 1 ≤ 1 :=
  ⟨le_min (le_max_right x 0) zero_le_one, min_le_right _ _⟩

/-- The recentering step guarantees a span of at least 20 dB. -/
theorem autoScale_span (specMin specMax curMin curMax : ℚ) :
    20 ≤ (autoScale specMin specMax curMin curMax).2
        - (autoScale specMin specMax curMin curMax).1 := by
  unfold autoScale
  dsimp only
  split_ifs <;> linarith

/-- Claim C5: `compute_fft` always returns exactly `fft_size` magnitudes,
each clipped into `[0, 1]`, and the floor/ceiling used for normalisation
satisfy `spec_max - spec_min ≥ 20`. -/
theorem compute_fft_bounds (fftO : List CQ → List CQ) (absO : CQ → ℚ)
    (log10O : ℚ → ℚ) (st : RadioDSP) (iq : List CQ)
    (hfft : ∀ l, (fftO l).length = l.length)
    (hwin : st.fft_window.length = st.fft_size) :
    (computeFFT fftO absO log10O st iq).1.magnitudes.length = st.fft_size ∧
      (∀ x ∈ (computeFFT fftO absO log10O st iq).1.magnitudes,
        0 ≤ x ∧ x ≤ 1) ∧
      20 ≤ (computeFFT fftO absO log10O st iq).2.spec_max
          - (computeFFT fftO absO log10O st iq).2.spec_min := by
  refine ⟨?_, ?_, ?_⟩
  · unfold computeFFT
    dsimp only
    simp only [List.length_map, fftshift_length, hfft, List.length_zipWith,
      List.length_drop, hwin]
    split
    · rename_i h
      simp only [List.length_append, List.length_replicate]
      omega
    · rename_i h
      omega
  · intro x hx
    unfold computeFFT at hx
    dsimp only at hx
    rw [List.mem_map] at hx
    obtain ⟨y, _, rfl⟩ := hx
    exact clip_unit _
  · unfold computeFFT
    dsimp only
    exact autoScale_span _ _ _ _

/-- Witness for C5 at `dspUSB` (fft_size 2) with the identity FFT oracle. -/
theorem compute_fft_bounds_witness :
    (computeFFT (fun l => l) (fun _ => 0) (fun _ => 0) dspUSB
        []).1.magnitudes.length = dspUSB.fft_size ∧
      20 ≤ (computeFFT (fun l => l) (fun _ => 0) (fun _ => 0) dspUSB
          []).2.spec_max
        - (computeFFT (fun l => l) (fun _ => 0) (fun _ => 0) dspUSB
          []).2.spec_min := by
  have h := compute_fft_bounds (fun l => l) (fun _ => 0) (fun _ => 0) dspUSB []
    (fun l => rfl) (by decide)
  exact ⟨h.1, h.2.2⟩

end EvilSDR
